import Mathlib

/-!
Formal model of the process-scheduling and memory-mediated-syscall core of a
small teaching operating-system kernel: the stride-scheduling task manager
(`TaskManager.fetch`), the page-aware cross-address-space copy (`copyout`),
and the `sys_mmap` / `sys_munmap` / `sys_task_info` syscall handlers.

Machine integers (`usize`, `u8`) are modelled as `Nat` with explicit
reduction modulo `2 ^ 64` (resp. `256`) at the points where the source
performs wrapping machine arithmetic or a narrowing cast.  External
collaborators (the memory mapper, the address translator's output, the
timer) are passed in as explicit parameters.
-/

/-- Page size of the kernel, from `config::PAGE_SIZE`. -/
def PAGE_SIZE : Nat := 4096

/-- One past the largest `usize` value: machine words are 64 bits wide. -/
def WORD : Nat := 2 ^ 64

/-! ## Stride scheduler (`os/src/task/manager.rs`) -/

/-- Modelled from the spec: the scheduler-visible surface of a
`TaskControlBlock` (the full task structure is an external collaborator).
`stride` is the unsigned accumulator compared by the scheduler; `pass` is
the task-owned per-selection increment (typically `BIG_STRIDE / priority`). -/
structure TaskControlBlock where
  stride : Nat
  pass : Nat
deriving DecidableEq

/-- Modelled from the spec: `TaskControlBlockInner::add_stride` advances the
task's stride by its own per-task increment. -/
def TaskControlBlock.add_stride (t : TaskControlBlock) : TaskControlBlock :=
  { t with stride := t.stride + t.pass }

/-- `TaskManager`: the fixed construction-time epoch and the ready queue. -/
structure TaskManager where
  start_time : Nat
  ready_queue : List TaskControlBlock
deriving DecidableEq

/-- The selection scan of `TaskManager::fetch`:
`ready_queue.iter().enumerate().min_by_key(|(_, v)| v.stride)`.
Returns the index and entry of the first minimal-stride element
(Rust's `min_by_key` keeps the earlier element on a tie). -/
def selectMin : List TaskControlBlock → Option (Nat × TaskControlBlock)
  | [] => none
  | t :: ts =>
    match selectMin ts with
    | none => some (0, t)
    | some (i, m) => if m.stride < t.stride then some (i + 1, m) else some (0, t)

/-- `TaskManager::fetch`: find the minimal-stride entry, advance its stride
through the shared reference, then remove it at its discovered index and
return it.  Returns the fetched task (if any) and the post-state. -/
def TaskManager.fetch (tm : TaskManager) : Option TaskControlBlock × TaskManager :=
  match selectMin tm.ready_queue with
  | none => (none, tm)
  | some (i, t) =>
    (some t.add_stride, { tm with ready_queue := tm.ready_queue.eraseIdx i })

/-- `get_start_time`: pure accessor for the scheduler-construction epoch. -/
def get_start_time (tm : TaskManager) : Nat :=
  tm.start_time

theorem selectMin_eq_none_iff (q : List TaskControlBlock) : selectMin q = none ↔ q = [] := by
  cases q with
  | nil => simp [selectMin]
  | cons t ts =>
    simp only [selectMin]
    cases h : selectMin ts with
    | none => simp
    | some p =>
      obtain ⟨i, m⟩ := p
      by_cases hc : m.stride < t.stride <;> simp [hc]

theorem selectMin_spec (q : List TaskControlBlock) (hq : q ≠ []) :
    ∃ i t, selectMin q = some (i, t) ∧ q[i]? = some t ∧
      ∀ u ∈ q, t.stride ≤ u.stride := by
  induction q with
  | nil => exact absurd rfl hq
  | cons t ts ih =>
    cases hsel : selectMin ts with
    | none =>
      have hts : ts = [] := (selectMin_eq_none_iff ts).mp hsel
      subst hts
      refine ⟨0, t, by simp [selectMin], by simp, ?_⟩
      intro u hu
      simp only [List.mem_singleton] at hu
      subst hu
      exact Nat.le_refl _
    | some p =>
      obtain ⟨i, m⟩ := p
      have hts : ts ≠ [] := by
        intro h
        subst h
        simp [selectMin] at hsel
      obtain ⟨i0, m0, hsel0, hget0, hmin0⟩ := ih hts
      rw [hsel] at hsel0
      replace hsel0 := Option.some.inj hsel0
      rw [Prod.mk.injEq] at hsel0
      obtain ⟨rfl, rfl⟩ := hsel0
      by_cases hc : m.stride < t.stride
      · refine ⟨i + 1, m, by simp [selectMin, hsel, hc], by simpa using hget0, ?_⟩
        intro u hu
        rcases List.mem_cons.mp hu with rfl | hu
        · exact Nat.le_of_lt hc
        · exact hmin0 u hu
      · refine ⟨0, t, by simp [selectMin, hsel, hc], by simp, ?_⟩
        intro u hu
        rcases List.mem_cons.mp hu with rfl | hu
        · exact Nat.le_refl _
        · exact Nat.le_trans (Nat.le_of_not_lt hc) (hmin0 u hu)

/-- Claim C1: on a non-empty ready queue, `fetch` removes and returns a task
whose stride is the minimum among the strides of all tasks present in the
queue at the time of the call (the returned reference has just been advanced
by the task's own increment; the comparison used the pre-call stride). -/
theorem fetch_returns_min_stride (tm : TaskManager) (hne : tm.ready_queue ≠ []) :
    ∃ t ∈ tm.ready_queue,
      (∀ u ∈ tm.ready_queue, t.stride ≤ u.stride) ∧
      tm.fetch.1 = some t.add_stride ∧
      tm.fetch.2.ready_queue.length + 1 = tm.ready_queue.length := by
  obtain ⟨i, t, hsel, hget, hmin⟩ := selectMin_spec tm.ready_queue hne
  have hlt : i < tm.ready_queue.length := by
    by_contra hge
    rw [List.getElem?_eq_none (Nat.le_of_not_lt hge)] at hget
    exact Option.noConfusion hget
  refine ⟨t, List.getElem?_mem hget, hmin, ?_, ?_⟩
  · simp [TaskManager.fetch, hsel]
  · simp only [TaskManager.fetch, hsel]
    have := List.length_eraseIdx_of_lt hlt
    simp only [this]
    omega

/-- Witness for claim C1 at a concrete two-task queue. -/
theorem fetch_returns_min_stride_witness :
    ∃ t ∈ (TaskManager.mk 7 [TaskControlBlock.mk 9 1, TaskControlBlock.mk 4 5]).ready_queue,
      (∀ u ∈ (TaskManager.mk 7 [TaskControlBlock.mk 9 1, TaskControlBlock.mk 4 5]).ready_queue,
        t.stride ≤ u.stride) ∧
      (TaskManager.mk 7 [TaskControlBlock.mk 9 1, TaskControlBlock.mk 4 5]).fetch.1 = some t.add_stride ∧
      (TaskManager.mk 7 [TaskControlBlock.mk 9 1, TaskControlBlock.mk 4 5]).fetch.2.ready_queue.length + 1 =
        (TaskManager.mk 7 [TaskControlBlock.mk 9 1, TaskControlBlock.mk 4 5]).ready_queue.length :=
  fetch_returns_min_stride (TaskManager.mk 7 [TaskControlBlock.mk 9 1, TaskControlBlock.mk 4 5]) (by decide)

/-- Claim C6: `fetch` on an empty ready queue returns `none` and leaves the
scheduler state (ready queue and `start_time`) unchanged; the function is
total, so no panic occurs. -/
theorem fetch_empty_id (tm : TaskManager) (h : tm.ready_queue = []) :
    tm.fetch = (none, tm) := by
  simp [TaskManager.fetch, h, selectMin]

/-- Witness for claim C6 at a concrete empty-queue state. -/
theorem fetch_empty_id_witness :
    (TaskManager.mk 42 []).fetch = (none, TaskManager.mk 42 []) :=
  fetch_empty_id (TaskManager.mk 42 []) rfl

/-- Claim C7: on a non-empty queue, `fetch` advances the stride of exactly
the selected minimal-stride entry by that task's own increment, removes
exactly that entry at its discovered position (everyone else keeps their
stride and relative position), and leaves `start_time` unchanged. -/
theorem fetch_frame_effect (tm : TaskManager) (hne : tm.ready_queue ≠ []) :
    ∃ i t, tm.ready_queue[i]? = some t ∧
      (∀ u ∈ tm.ready_queue, t.stride ≤ u.stride) ∧
      tm.fetch.1 = some t.add_stride ∧
      t.add_stride.stride = t.stride + t.pass ∧
      tm.fetch.2.ready_queue =
        tm.ready_queue.take i ++ tm.ready_queue.drop (i + 1) ∧
      tm.fetch.2.start_time = tm.start_time := by
  obtain ⟨i, t, hsel, hget, hmin⟩ := selectMin_spec tm.ready_queue hne
  refine ⟨i, t, hget, hmin, ?_, rfl, ?_, ?_⟩
  · simp [TaskManager.fetch, hsel]
  · simp [TaskManager.fetch, hsel, List.eraseIdx_eq_take_drop_succ]
  · simp [TaskManager.fetch, hsel]

/-- Witness for claim C7 at a concrete two-task queue. -/
theorem fetch_frame_effect_witness :
    ∃ i t, (TaskManager.mk 7 [TaskControlBlock.mk 9 1, TaskControlBlock.mk 4 5]).ready_queue[i]? = some t ∧
      (∀ u ∈ (TaskManager.mk 7 [TaskControlBlock.mk 9 1, TaskControlBlock.mk 4 5]).ready_queue,
        t.stride ≤ u.stride) ∧
      (TaskManager.mk 7 [TaskControlBlock.mk 9 1, TaskControlBlock.mk 4 5]).fetch.1 = some t.add_stride ∧
      t.add_stride.stride = t.stride + t.pass ∧
      (TaskManager.mk 7 [TaskControlBlock.mk 9 1, TaskControlBlock.mk 4 5]).fetch.2.ready_queue =
        (TaskManager.mk 7 [TaskControlBlock.mk 9 1, TaskControlBlock.mk 4 5]).ready_queue.take i ++
          (TaskManager.mk 7 [TaskControlBlock.mk 9 1, TaskControlBlock.mk 4 5]).ready_queue.drop (i + 1) ∧
      (TaskManager.mk 7 [TaskControlBlock.mk 9 1, TaskControlBlock.mk 4 5]).fetch.2.start_time =
        (TaskManager.mk 7 [TaskControlBlock.mk 9 1, TaskControlBlock.mk 4 5]).start_time :=
  fetch_frame_effect (TaskManager.mk 7 [TaskControlBlock.mk 9 1, TaskControlBlock.mk 4 5]) (by decide)

/-! ## Memory-mapping syscalls (`os/src/syscall/process.rs`) -/

namespace MapPermission

/-- Modelled from the spec: the mapping permission is a small bit-set
{Read, Write, Execute, User} over a `u8`, with bit positions matching the
source's translation `port << 1` of the R/W/X `port` bits and the forced
user flag: R = bit 1, W = bit 2, X = bit 3, U = bit 4. -/
def U : Nat := 16

/-- All defined permission bits: `R | W | X | U = 0b11110`. -/
def allBits : Nat := 30

/-- Modelled from the spec: `bitflags`-style `from_bits` returns the value
when no undefined bit is set, and nothing otherwise. -/
def from_bits (b : Nat) : Option Nat :=
  if b &&& (255 ^^^ allBits) = 0 then some b else none

end MapPermission

/-- The in-place update of `len` in `sys_mmap`: when `len != 0`,
`len = (len + PAGE_SIZE - 1) & !(PAGE_SIZE - 1)` in wrapping `usize`
arithmetic (`!(PAGE_SIZE - 1)` as a 64-bit word is `WORD - PAGE_SIZE`). -/
def mmapLen (len : Nat) : Nat :=
  if len ≠ 0 then ((len + PAGE_SIZE - 1) % WORD) &&& (WORD - PAGE_SIZE) else len

/-- `sys_mmap(start, len, port)`.  The external Memory Mapper is the
parameter `mapper` (`mmap(start_va, end_va, perm) -> bool`).  The result is
`none` when the source would panic (the `unwrap` on `from_bits`), and
otherwise the returned `isize` together with the installation request that
was passed to the Memory Mapper (`none` when no request was made). -/
def sys_mmap (mapper : Nat → Nat → Nat → Bool) (start len port : Nat) :
    Option (Int × Option (Nat × Nat × Nat)) :=
  if start % PAGE_SIZE ≠ 0 then
    some (-1, none)
  else if port &&& (WORD - 8) ≠ 0 ∨ port &&& 7 = 0 then
    some (-1, none)
  else
    match MapPermission.from_bits ((port <<< 1) % 256) with
    | none => none
    | some p =>
      if mapper start ((start + mmapLen len) % WORD) (p ||| MapPermission.U) then
        some (0, some (start, (start + mmapLen len) % WORD, p ||| MapPermission.U))
      else
        some (-1, some (start, (start + mmapLen len) % WORD, p ||| MapPermission.U))

/-- `sys_munmap(start, len)`.  The external Memory Mapper's removal is the
parameter `remover` (`munmap(start_va, end_va) -> bool`).  Returns the
`isize` result and the removal request passed to the Memory Mapper
(`none` when no request was made). -/
def sys_munmap (remover : Nat → Nat → Bool) (start len : Nat) :
    Int × Option (Nat × Nat) :=
  if start % PAGE_SIZE ≠ 0 then
    (-1, none)
  else if len % PAGE_SIZE ≠ 0 then
    (-1, none)
  else if remover start ((start + len) % WORD) then
    (0, some (start, (start + len) % WORD))
  else
    (-1, some (start, (start + len) % WORD))

/-- The mathematical round-up of `len` to the next multiple of `PAGE_SIZE`,
as the spec words it (`len = 0` rounds to `0`). -/
def pageRound (len : Nat) : Nat :=
  (len + PAGE_SIZE - 1) / PAGE_SIZE * PAGE_SIZE

/-- Masking a word-bounded value with `2 ^ n - 2 ^ k` clears its low `k`
bits: the bitwise form of rounding down to a multiple of `2 ^ k`. -/
theorem land_mask_eq {n k x : Nat} (hk : k ≤ n) (hx : x < 2 ^ n) :
    x &&& (2 ^ n - 2 ^ k) = x / 2 ^ k * 2 ^ k := by
  have hmask : 2 ^ n - 2 ^ k = (2 ^ (n - k) - 1) <<< k := by
    rw [Nat.shiftLeft_eq, Nat.sub_mul, ← Nat.pow_add, one_mul, Nat.sub_add_cancel hk]
  have hdiv : x / 2 ^ k * 2 ^ k = (x >>> k) <<< k := by
    rw [Nat.shiftRight_eq_div_pow, Nat.shiftLeft_eq]
  rw [hmask, hdiv]
  apply Nat.eq_of_testBit_eq
  intro i
  simp only [Nat.testBit_and, Nat.testBit_shiftLeft, Nat.testBit_shiftRight,
    Nat.testBit_two_pow_sub_one]
  by_cases hik : k ≤ i
  · by_cases hin : i < n
    · have hadd : k + (i - k) = i := by omega
      simp [hik, hadd, show i - k < n - k by omega]
    · have hxi : x.testBit i = false :=
        Nat.testBit_lt_two_pow
          (Nat.lt_of_lt_of_le hx (Nat.pow_le_pow_right (by norm_num) (by omega)))
      have hadd : k + (i - k) = i := by omega
      simp [hik, hadd, hxi, show ¬ i - k < n - k by omega]
  · simp [hik]

/-- A word-bounded value whose bits outside the low three are all clear is
below `8`: the reading of the source's `port & !0x7 == 0` test. -/
theorem land_high_zero_lt_eight {x : Nat} (hx : x < WORD)
    (h : x &&& (WORD - 8) = 0) : x < 8 := by
  have h8 : (8 : Nat) = 2 ^ 3 := by norm_num
  have := land_mask_eq (n := 64) (k := 3) (by omega) (by simpa [WORD] using hx)
  rw [WORD, h8] at h
  rw [h] at this
  have hdiv : x / 2 ^ 3 = 0 := by
    by_contra hne
    have : x / 2 ^ 3 * 2 ^ 3 ≠ 0 := by positivity
    omega
  have hx8 := Nat.mod_lt x (y := 2 ^ 3) (by norm_num)
  have hdm := Nat.div_add_mod x (2 ^ 3)
  omega

/-- When the rounding does not overflow the machine word, the source's
masked rounding computes exactly the mathematical page round-up. -/
theorem mmapLen_eq_pageRound {len : Nat} (h : len + PAGE_SIZE - 1 < WORD) :
    mmapLen len = pageRound len := by
  by_cases h0 : len = 0
  · subst h0
    decide
  · unfold mmapLen pageRound
    rw [if_pos h0, Nat.mod_eq_of_lt h]
    have hm : WORD - PAGE_SIZE = 2 ^ 64 - 2 ^ 12 := by norm_num [WORD, PAGE_SIZE]
    have h12 : PAGE_SIZE = 2 ^ 12 := by norm_num [PAGE_SIZE]
    rw [hm, h12, land_mask_eq (by norm_num) (by simpa [WORD, PAGE_SIZE] using h)]

/-- If the mathematical round-up fits in a word, so does `len + PAGE_SIZE - 1`. -/
theorem pageRound_lt_word {len : Nat} (h : pageRound len < WORD) :
    len + PAGE_SIZE - 1 < WORD := by
  unfold pageRound PAGE_SIZE WORD at *
  omega

/-- Basic properties of the mathematical page round-up. -/
theorem pageRound_spec (len : Nat) :
    len ≤ pageRound len ∧ pageRound len < len + PAGE_SIZE ∧
      pageRound len % PAGE_SIZE = 0 := by
  unfold pageRound PAGE_SIZE
  omega

/-- Claim C4: on a start address that is not page-aligned, both `sys_mmap`
(with any port) and `sys_munmap` return `-1` and pass no request at all to
the Memory Mapper (neither install nor remove is invoked). -/
theorem mmap_munmap_misaligned_reject (mapper : Nat → Nat → Nat → Bool)
    (remover : Nat → Nat → Bool) (start len port : Nat)
    (h : start % PAGE_SIZE ≠ 0) :
    sys_mmap mapper start len port = some (-1, none) ∧
    sys_munmap remover start len = (-1, none) := by
  constructor
  · unfold sys_mmap
    rw [if_pos h]
  · unfold sys_munmap
    rw [if_pos h]

/-- Witness for claim C4 at the concrete misaligned start `0x1001`. -/
theorem mmap_munmap_misaligned_reject_witness :
    (4097 : Nat) % PAGE_SIZE ≠ 0 ∧
    sys_mmap (fun _ _ _ => true) 4097 4096 3 = some (-1, none) ∧
    sys_munmap (fun _ _ => true) 4097 4096 = (-1, none) :=
  ⟨by decide,
   (mmap_munmap_misaligned_reject (fun _ _ _ => true) (fun _ _ => true)
      4097 4096 3 (by decide)).1,
   (mmap_munmap_misaligned_reject (fun _ _ _ => true) (fun _ _ => true)
      4097 4096 3 (by decide)).2⟩

/-- Claim C5: on a page-aligned start, any word-sized `port` outside
`{1, ..., 7}` (a bit outside the low three set, or none of the low three
set) makes `sys_mmap` return `-1` without requesting any installation. -/
theorem sys_mmap_bad_port_reject (mapper : Nat → Nat → Nat → Bool)
    (start len port : Nat) (ha : start % PAGE_SIZE = 0) (hp : port < WORD)
    (hbad : ¬ (1 ≤ port ∧ port ≤ 7)) :
    sys_mmap mapper start len port = some (-1, none) := by
  have hcond : port &&& (WORD - 8) ≠ 0 ∨ port &&& 7 = 0 := by
    rcases Nat.eq_zero_or_pos port with rfl | hpos
    · right
      rfl
    · left
      intro h0
      have := land_high_zero_lt_eight hp h0
      omega
  unfold sys_mmap
  rw [if_neg (by simp [ha]), if_pos hcond]

/-- Witness for claim C5 at the concrete port `8`. -/
theorem sys_mmap_bad_port_reject_witness :
    (0 : Nat) % PAGE_SIZE = 0 ∧ (8 : Nat) < WORD ∧ ¬ ((1 : Nat) ≤ 8 ∧ (8 : Nat) ≤ 7) ∧
    sys_mmap (fun _ _ _ => true) 0 4096 8 = some (-1, none) :=
  ⟨by decide, by decide, by decide,
   sys_mmap_bad_port_reject (fun _ _ _ => true) 0 4096 8 (by decide) (by decide)
     (by decide)⟩

/-- Forcing a bit-set onto a value keeps it set: `(a ||| b) &&& b = b`. -/
theorem lor_land_self (a b : Nat) : (a ||| b) &&& b = b := by
  apply Nat.eq_of_testBit_eq
  intro i
  simp only [Nat.testBit_and, Nat.testBit_or]
  cases b.testBit i <;> simp

/-- Once the port validation of `sys_mmap` has passed, the port is one of
`1, ..., 7`. -/
theorem port_valid_range {port : Nat} (hp : port < WORD)
    (hA : port &&& (WORD - 8) = 0) (hB : port &&& 7 ≠ 0) :
    1 ≤ port ∧ port ≤ 7 := by
  have h8 := land_high_zero_lt_eight hp hA
  have h0 : port ≠ 0 := by
    rintro rfl
    exact hB rfl
  omega

/-- For a port in `1, ..., 7`, the permission conversion succeeds. -/
theorem from_bits_valid_port {port : Nat} (h1 : 1 ≤ port) (h7 : port ≤ 7) :
    MapPermission.from_bits ((port <<< 1) % 256) = some ((port <<< 1) % 256) := by
  interval_cases port <;> decide

/-- Claim C9: for every word-sized `port`, `sys_mmap` never reaches the
panicking branch: whenever the alignment and port validations pass, the
`MapPermission.from_bits` conversion on `port << 1` yields a value, so the
`unwrap` cannot fail and the handler always returns a result. -/
theorem sys_mmap_no_panic (mapper : Nat → Nat → Nat → Bool)
    (start len port : Nat) (hp : port < WORD) :
    (port &&& (WORD - 8) = 0 → port &&& 7 ≠ 0 →
      (MapPermission.from_bits ((port <<< 1) % 256)).isSome) ∧
    (sys_mmap mapper start len port).isSome := by
  constructor
  · intro hA hB
    obtain ⟨h1, h7⟩ := port_valid_range hp hA hB
    rw [from_bits_valid_port h1 h7]
    rfl
  · by_cases hal : start % PAGE_SIZE ≠ 0
    · unfold sys_mmap
      rw [if_pos hal]
      rfl
    · by_cases hcheck : port &&& (WORD - 8) ≠ 0 ∨ port &&& 7 = 0
      · unfold sys_mmap
        rw [if_neg hal, if_pos hcheck]
        rfl
      · push_neg at hcheck
        obtain ⟨hA, hB⟩ := hcheck
        obtain ⟨h1, h7⟩ := port_valid_range hp hA hB
        unfold sys_mmap
        rw [if_neg hal, if_neg (by push_neg; exact ⟨hA, hB⟩),
          from_bits_valid_port h1 h7]
        by_cases hm : mapper start ((start + mmapLen len) % WORD)
            (((port <<< 1) % 256) ||| MapPermission.U)
        · simp [hm]
        · simp [hm]

/-- Witness for claim C9 at the concrete port `5`. -/
theorem sys_mmap_no_panic_witness :
    (5 : Nat) < WORD ∧
    (((5 : Nat) &&& (WORD - 8) = 0 → (5 : Nat) &&& 7 ≠ 0 →
      (MapPermission.from_bits (((5 : Nat) <<< 1) % 256)).isSome) ∧
    (sys_mmap (fun _ _ _ => false) 0 4096 5).isSome) :=
  ⟨by decide, sys_mmap_no_panic (fun _ _ _ => false) 0 4096 5 (by decide)⟩

/-- Claim C2 (amended): for a page-aligned `start`, a port in `1, ..., 7`,
and a request whose rounded end address `start + pageRound len` stays below
`2 ^ 64` (no machine-word overflow), `sys_mmap` rounds `len` up to the next
page-size multiple (`len = 0` rounds to `0`), derives the permission from
the port's R/W/X bits with the user flag forced on, requests installation
of `[start, start + pageRound len)` from the Memory Mapper, and returns `0`
exactly when the installation succeeds and `-1` otherwise. -/
theorem sys_mmap_valid_request (mapper : Nat → Nat → Nat → Bool)
    (start len port : Nat) (ha : start % PAGE_SIZE = 0)
    (h1 : 1 ≤ port) (h7 : port ≤ 7)
    (hov : start + pageRound len < WORD) :
    sys_mmap mapper start len port =
      some
        ((if mapper start (start + pageRound len)
            (((port <<< 1) % 256) ||| MapPermission.U) then 0 else -1),
         some (start, start + pageRound len,
           ((port <<< 1) % 256) ||| MapPermission.U)) ∧
    len ≤ pageRound len ∧ pageRound len < len + PAGE_SIZE ∧
    pageRound len % PAGE_SIZE = 0 ∧
    (((port <<< 1) % 256) ||| MapPermission.U) &&& MapPermission.U =
      MapPermission.U := by
  have hround : mmapLen len = pageRound len :=
    mmapLen_eq_pageRound (pageRound_lt_word (by omega))
  have hcheckF : ¬ (port &&& (WORD - 8) ≠ 0 ∨ port &&& 7 = 0) := by
    interval_cases port <;> decide
  have hmod : (start + mmapLen len) % WORD = start + pageRound len := by
    rw [hround]
    exact Nat.mod_eq_of_lt hov
  obtain ⟨hle, hlt, hdvd⟩ := pageRound_spec len
  refine ⟨?_, hle, hlt, hdvd, lor_land_self _ _⟩
  unfold sys_mmap
  rw [if_neg (by simp [ha]), if_neg hcheckF, from_bits_valid_port h1 h7]
  rw [hmod]
  dsimp only
  by_cases hm : mapper start (start + pageRound len)
      (((port <<< 1) % 256) ||| MapPermission.U) <;> simp [hm]

/-- Witness for claim C2 (amended) at `start = 0x1000`, `len = 1`,
`port = 3`: one page is requested with permission R, W, U. -/
theorem sys_mmap_valid_request_witness :
    (4096 : Nat) % PAGE_SIZE = 0 ∧ (1 : Nat) ≤ 3 ∧ (3 : Nat) ≤ 7 ∧
    (4096 : Nat) + pageRound 1 < WORD ∧
    (sys_mmap (fun _ _ _ => true) 4096 1 3 =
      some
        ((if (fun _ _ _ => true) 4096 (4096 + pageRound 1)
            ((((3 : Nat) <<< 1) % 256) ||| MapPermission.U) then 0 else -1),
         some (4096, 4096 + pageRound 1,
           (((3 : Nat) <<< 1) % 256) ||| MapPermission.U)) ∧
      (1 : Nat) ≤ pageRound 1 ∧ pageRound 1 < 1 + PAGE_SIZE ∧
      pageRound 1 % PAGE_SIZE = 0 ∧
      ((((3 : Nat) <<< 1) % 256) ||| MapPermission.U) &&& MapPermission.U =
        MapPermission.U) :=
  ⟨by decide, by decide, by decide, by decide,
   sys_mmap_valid_request (fun _ _ _ => true) 4096 1 3 (by decide) (by decide)
     (by decide) (by decide)⟩

/-- Counterexample to claim C2 as stated: at the page-aligned start
`2 ^ 64 - 4096` with `len = 4096` and `port = 1` — inputs satisfying every
precondition of the claim — the end address passed to the Memory Mapper is
the wrapped machine word `0`, not `start + 4096 = 2 ^ 64`, so the requested
range is not `[start, start + rounded_len)`. -/
theorem sys_mmap_overflow_counterexample :
    (WORD - PAGE_SIZE) % PAGE_SIZE = 0 ∧ (1 : Nat) ≤ 1 ∧ (1 : Nat) ≤ 7 ∧
    pageRound PAGE_SIZE = PAGE_SIZE ∧
    sys_mmap (fun _ _ _ => true) (WORD - PAGE_SIZE) PAGE_SIZE 1 =
      some (0, some (WORD - PAGE_SIZE, 0, 18)) ∧
    WORD - PAGE_SIZE + pageRound PAGE_SIZE ≠ 0 := by
  decide

/-! ## Cross-space copy (`copyout`, `os/src/syscall/process.rs`) -/

/-- One step of the flatten-zip copy: overwrite the bytes of a single
destination slice with the leading source bytes (stopping when either side
runs out, as `zip` does), returning the updated slice and the source bytes
not yet consumed. -/
def writeSeq : List Nat → List Nat → List Nat × List Nat
  | [], s => ([], s)
  | d, [] => (d, [])
  | _ :: ds, s :: ss =>
    let r := writeSeq ds ss
    (s :: r.1, r.2)

/-- `copyout`, with the Address Translator's output made explicit: `dst` is
the ordered list of physical byte slices that `translated_byte_buffer`
returned for the destination range, and `src` is the raw byte view of the
source value (`size_of::<T>()` bytes).  The source iterates
`buffer.into_iter().flatten().zip(src.iter())` and overwrites element-wise;
the model returns the updated destination slices. -/
def copyout : List (List Nat) → List Nat → List (List Nat)
  | [], _ => []
  | b :: bs, src =>
    let r := writeSeq b src
    r.1 :: copyout bs r.2

theorem writeSeq_eq (d s : List Nat) :
    writeSeq d s = (s.take d.length ++ d.drop s.length, s.drop d.length) := by
  induction d generalizing s with
  | nil => simp [writeSeq]
  | cons x xs ih =>
    cases s with
    | nil => simp [writeSeq]
    | cons y ys => simp [writeSeq, ih]

theorem writeSeq_fst_length (d s : List Nat) :
    (writeSeq d s).1.length = d.length := by
  rw [writeSeq_eq]
  simp only [List.length_append, List.length_take, List.length_drop]
  omega

/-- The flattened result of `copyout`: the source bytes, cut off at the
total destination capacity, followed by the destination bytes the source
was too short to reach. -/
theorem copyout_flatten (dst : List (List Nat)) (src : List Nat) :
    (copyout dst src).flatten =
      src.take dst.flatten.length ++ dst.flatten.drop src.length := by
  induction dst generalizing src with
  | nil => simp [copyout]
  | cons b bs ih =>
    simp only [copyout, List.flatten_cons, writeSeq_eq, ih, List.length_drop,
      List.length_append]
    rw [List.take_add, List.drop_append_eq_append_drop]
    rcases Nat.le_total b.length src.length with hbs | hbs
    · have hb : b.drop src.length = [] := List.drop_eq_nil_of_le hbs
      rw [hb]
      simp [List.append_assoc]
    · have hs : src.drop b.length = [] := List.drop_eq_nil_of_le hbs
      rw [hs]
      simp [List.append_assoc]

/-- When the destination slices cover exactly the source size, the copy
reproduces the source bytes. -/
theorem copyout_flatten_covered (dst : List (List Nat)) (src : List Nat)
    (h : dst.flatten.length = src.length) :
    (copyout dst src).flatten = src := by
  have hnil : dst.flatten.drop src.length = [] := by
    rw [← h]
    exact List.drop_length _
  rw [copyout_flatten, h, List.take_length, hnil, List.append_nil]

/-- Claim C3: when the destination range translates to an ordered list of
physical slices that together cover exactly the source's size, `copyout`
writes the i-th source byte to the i-th byte of the flattened destination
slice list; hence any two slicings of the same total size — e.g. a
destination straddling two pages and a same-size single-page destination —
receive byte-identical contents. -/
theorem copyout_flatten_exact (dst dst2 : List (List Nat)) (src : List Nat)
    (h : dst.flatten.length = src.length)
    (h2 : dst2.flatten.length = src.length) :
    (copyout dst src).flatten = src ∧
    (copyout dst2 src).flatten = (copyout dst src).flatten := by
  refine ⟨copyout_flatten_covered dst src h, ?_⟩
  rw [copyout_flatten_covered dst src h, copyout_flatten_covered dst2 src h2]

/-- Witness for claim C3: a two-slice (page-straddling) destination and a
one-slice destination of the same total size receive the same bytes. -/
theorem copyout_flatten_exact_witness :
    ([[7], [7, 7]] : List (List Nat)).flatten.length = [1, 2, 3].length ∧
    ([[7, 7, 7]] : List (List Nat)).flatten.length = [1, 2, 3].length ∧
    ((copyout [[7], [7, 7]] [1, 2, 3]).flatten = [1, 2, 3] ∧
      (copyout [[7, 7, 7]] [1, 2, 3]).flatten =
        (copyout [[7], [7, 7]] [1, 2, 3]).flatten) :=
  ⟨by decide, by decide,
   copyout_flatten_exact [[7], [7, 7]] [[7, 7, 7]] [1, 2, 3] (by decide)
     (by decide)⟩

/-- Claim C10: `copyout` is total and signals no failure.  It preserves the
slice structure of the destination, and its flattened output overwrites
exactly `min (total destination bytes) (source size)` bytes: a destination
shorter than the source silently truncates the copy (the source tail is
dropped), a longer one keeps its tail bytes untouched. -/
theorem copyout_truncates (dst : List (List Nat)) (src : List Nat) :
    (copyout dst src).map List.length = dst.map List.length ∧
    (copyout dst src).flatten =
      src.take dst.flatten.length ++ dst.flatten.drop src.length ∧
    (src.take dst.flatten.length).length =
      min dst.flatten.length src.length := by
  refine ⟨?_, copyout_flatten dst src, by simp [List.length_take]⟩
  induction dst generalizing src with
  | nil => simp [copyout]
  | cons b bs ih => simp [copyout, writeSeq_fst_length, ih]

/-! ## `sys_task_info` (`os/src/syscall/process.rs`) -/

/-- Modelled from the spec: the task lifecycle state, one of
Ready / Running / Exited (the full enum is owned by the external
task-control-block collaborator). -/
inductive TaskStatus where
  | Ready
  | Running
  | Exited
deriving DecidableEq

/-- `TaskInfo`: the record assembled by `sys_task_info` — status, the full
per-syscall counter table, and elapsed running time in milliseconds. -/
structure TaskInfo where
  status : TaskStatus
  syscall_times : List Nat
  time : Nat
deriving DecidableEq

/-- The ambient kernel state read by `sys_task_info`: the current
millisecond clock (`get_time_ms`), the task manager (for
`get_start_time`), and the current task's accessors (`get_task_status`,
`get_syscall_times`). -/
structure KernelEnv where
  now_ms : Nat
  manager : TaskManager
  task_status : TaskStatus
  task_syscall_times : List Nat

/-- `sys_task_info(ti)`: build a `TaskInfo` from the current task's status
and syscall counters and the elapsed time `get_time_ms() - get_start_time()`,
copy it out through `copyout`, and return `0`.  The raw-byte view of the
record (`core::slice::from_raw_parts`) is the parameter `enc`; `dst` is the
translated destination slice list for the user pointer. -/
def sys_task_info (enc : TaskInfo → List Nat) (env : KernelEnv)
    (dst : List (List Nat)) : List (List Nat) × Int :=
  (copyout dst
    (enc
      { status := env.task_status
        syscall_times := env.task_syscall_times
        time := env.now_ms - get_start_time env.manager }), 0)

/-- Claim C8: `sys_task_info` fills the `time` field with the current
kernel millisecond clock minus the scheduler-construction epoch
(`get_start_time`), fills `status` and `syscall_times` from the current
task's accessors, copies the record out byte-exactly through the
cross-space copy, and returns `0`. -/
theorem sys_task_info_spec (enc : TaskInfo → List Nat) (env : KernelEnv)
    (dst : List (List Nat))
    (hcov : dst.flatten.length =
      (enc
        { status := env.task_status
          syscall_times := env.task_syscall_times
          time := env.now_ms - get_start_time env.manager }).length)
    (hle : get_start_time env.manager ≤ env.now_ms) :
    ∃ ti : TaskInfo,
      ti.status = env.task_status ∧
      ti.syscall_times = env.task_syscall_times ∧
      ti.time + get_start_time env.manager = env.now_ms ∧
      (sys_task_info enc env dst).1.flatten = enc ti ∧
      (sys_task_info enc env dst).2 = 0 := by
  refine
    ⟨{ status := env.task_status
       syscall_times := env.task_syscall_times
       time := env.now_ms - get_start_time env.manager },
     rfl, rfl, Nat.sub_add_cancel hle, ?_, rfl⟩
  exact copyout_flatten_covered dst _ hcov

/-- Witness for claim C8 at a concrete environment, encoding, and
two-slice destination. -/
theorem sys_task_info_spec_witness :
    ∃ ti : TaskInfo,
      ti.status = TaskStatus.Running ∧
      ti.syscall_times = [9] ∧
      ti.time + get_start_time (TaskManager.mk 2 []) = 5 ∧
      (sys_task_info (fun ti => ti.syscall_times ++ [ti.time])
        (KernelEnv.mk 5 (TaskManager.mk 2 []) TaskStatus.Running [9])
        [[0], [0]]).1.flatten =
        (fun ti : TaskInfo => ti.syscall_times ++ [ti.time]) ti ∧
      (sys_task_info (fun ti => ti.syscall_times ++ [ti.time])
        (KernelEnv.mk 5 (TaskManager.mk 2 []) TaskStatus.Running [9])
        [[0], [0]]).2 = 0 :=
  sys_task_info_spec (fun ti => ti.syscall_times ++ [ti.time])
    (KernelEnv.mk 5 (TaskManager.mk 2 []) TaskStatus.Running [9])
    [[0], [0]] (by decide) (by decide)
